import Mathlib

set_option autoImplicit false

namespace MongoPlugin

/-! Shallow embedding of the schema-inference core of the MongoDB Steampipe plugin
(`src/mongodb/analyzer/mongoschema.go`, `src/mongodb/utils.go`, plus the predicate
compiler called by the tests in `src/main.go`). -/

/-- `PrimitiveType` from mongoschema.go (lines 82-103): the fixed enumeration of
primitive BSON kinds. -/
inductive PrimitiveKind where
  | pBool | pDouble | pInt32 | pInt64 | pDecimal | pString | pBinary
  | pObjectId | pRegex | pJS | pScopedCode | pSymbol | pDateTime
  | pTimestamp | pDBPointer | pMinKey | pMaxKey | pUndefined
  deriving DecidableEq

/-- The `Type` interface of mongoschema.go with its five implementations:
`LiteralType` (a string literal marker), `PrimitiveType`, `MixedType` (a list of
types), `SliceType` (one element type) and `StructType` (a field-name-to-type
mapping).  Go's `StructType` is a map; it is modelled as an association list in
insertion order (Go map iteration order is unspecified, so any deterministic
order is a canonical choice). -/
inductive Ty where
  | lit (s : String)
  | prim (p : PrimitiveKind)
  | mixed (ts : List Ty)
  | slice (t : Ty)
  | strct (fs : List (String × Ty))

/-- `NilType = LiteralType{Literal: "nil"}` (mongoschema.go line 63). -/
def nilType : Ty := Ty.lit "nil"

/-- `isValidFieldName` (mongoschema.go lines 338-346): nonempty and containing
neither `!` nor `*`. -/
def isValidFieldName (n : String) : Bool :=
  n ≠ "" && !(n.data.any (fun c => c = '!' || c = '*'))

/-- First step of `split` (mongoschema.go line 356): `dashUnderscoreReplacer`
replaces `-` and `_` by spaces. -/
def replaceDashUnderscore (s : String) : String :=
  String.mk (s.data.map (fun c => if c = '-' || c = '_' then ' ' else c))

/-- Second step of `split` (line 357): `capsRe.ReplaceAllString(str, " $1")`
inserts a space before each ASCII capital letter. -/
def insertSpaceBeforeCaps (s : String) : String :=
  String.mk (s.data.foldr (fun c acc => if c.isUpper then ' ' :: c :: acc else c :: acc) [])

/-- A character matched by Go's regexp `\w`. -/
def isWordChar (c : Char) : Bool :=
  c.isAlpha || c.isDigit || c = '_'

/-- Helper for `wordRuns`: walks the characters keeping the current (reversed)
run of word characters in the accumulator. -/
def wordRunsAux : List Char → List Char → List String
  | cur, [] => if cur = [] then [] else [String.mk cur.reverse]
  | cur, c :: rest =>
      if isWordChar c then wordRunsAux (c :: cur) rest
      else (if cur = [] then [] else [String.mk cur.reverse]) ++ wordRunsAux [] rest

/-- Third step of `split` (line 358): `spaceRe.FindAllString` extracts the
maximal runs of word characters. -/
def wordRuns (cs : List Char) : List String := wordRunsAux [] cs

/-- `cases.Title(language.English)` applied to one word: first letter upper-cased,
the rest lower-cased (ASCII behaviour of the Go title caser). -/
def titleCase (w : String) : String :=
  match w.data with
  | [] => ""
  | c :: rest => String.mk (c.toUpper :: rest.map Char.toLower)

/-- `makeFieldName` (mongoschema.go lines 361-383): split the raw key into words,
upper-case the words in `forcedUpperCase` (`id`, `url`, `api`), title-case the
others, join, then replace characters that are not letters (first position) or
letters/digits (later positions) by `_`. -/
def makeFieldName (s : String) : String :=
  let parts := wordRuns (insertSpaceBeforeCaps (replaceDashUnderscore s)).data
  let cased := parts.map (fun p =>
    if ["id", "url", "api"].contains (String.mk (p.data.map Char.toLower))
    then String.mk (p.data.map Char.toUpper)
    else titleCase p)
  let camel := String.join cased
  match camel.data with
  | [] => ""
  | c0 :: rest =>
      String.mk ((if c0.isAlpha then c0 else '_') ::
        rest.map (fun c => if c.isAlpha || c.isDigit then c else '_'))

/-- The `GoType` string of each `PrimitiveType` (mongoschema.go lines 105-145). -/
def primGoName : PrimitiveKind → String
  | .pBool => "bool"
  | .pDouble => "float64"
  | .pInt32 => "int32"
  | .pInt64 => "int64"
  | .pDecimal => "bson.Decimal128"
  | .pString => "string"
  | .pBinary => "bson.Binary"
  | .pObjectId => "bson.ObjectId"
  | .pRegex => "bson.Regex"
  | .pJS => "bson.JavaScript"
  | .pScopedCode => "bson.CodeWithScope"
  | .pSymbol => "bson.Symbol"
  | .pDateTime => "bson.DateTime"
  | .pTimestamp => "time.Time"
  | .pDBPointer => "bson.DBPointer"
  | .pMinKey => "bson.MinKey"
  | .pMaxKey => "bson.MaxKey"
  | .pUndefined => "bson.Undefined"

mutual

/-- `GoType` of each `Type` implementation: `LiteralType.GoType` returns the
literal, `MixedType.GoType` returns `interface{}`, `SliceType.GoType` prepends
`[]`, and `StructType.GoType` renders a Go struct declaration (mongoschema.go
lines 52-54, 67-69, 158-160, 194-212).  Go iterates the struct's map in
unspecified order; the association-list order is the canonical choice here. -/
def goType : Ty → String
  | .lit s => s
  | .prim p => primGoName p
  | .mixed _ => "interface\x7b\x7d"
  | .slice t => "[]" ++ goType t
  | .strct fs => "struct \x7b\n" ++ goTypeFields fs ++ "\x7d"

/-- The field lines of `StructType.GoType` (mongoschema.go lines 197-209):
fields with invalid names are skipped. -/
def goTypeFields : List (String × Ty) → String
  | [] => ""
  | (k, t) :: rest =>
      (if isValidFieldName k then
        makeFieldName k ++ " " ++ goType t ++ " `bson:\"" ++ k ++ ",omitempty\"`\n"
      else "") ++ goTypeFields rest

end

/-- First-occurrence lookup in a `StructType` association list (Go map read `s[k]`). -/
def lookupField : List (String × Ty) → String → Option Ty
  | [], _ => none
  | (k, v) :: rest, key => if k = key then some v else lookupField rest key

/-- Overwrite of an existing key in a `StructType` association list (Go map write
`s[k] = t` for a present key). -/
def setField : List (String × Ty) → String → Ty → List (String × Ty)
  | [], _, _ => []
  | (k, v) :: rest, key, t => if k = key then (k, t) :: rest else (k, v) :: setField rest key t

/-- The scan in `SliceType.Merge` (mongoschema.go lines 179-184): find the first
member of a `MixedType` that is a `StructType`, returning the members before it,
its fields, and the members after it. -/
def splitAtFirstStruct : List Ty → Option (List Ty × List (String × Ty) × List Ty)
  | [] => none
  | .strct fs :: rest => some ([], fs, rest)
  | m :: rest => (splitAtFirstStruct rest).map (fun pfs => (m :: pfs.1, pfs.2.1, pfs.2.2))

mutual

/-- The `Merge` methods of the `Type` implementations, dispatched on the receiver
(mongoschema.go lines 56-61 `LiteralType`, 71-80 `MixedType`, 147-152
`PrimitiveType`, 162-190 `SliceType`, 214-229 `StructType`).  Structural equality
is, as in the source, equality of rendered `GoType` strings. -/
def merge (a b : Ty) : Ty :=
  match a with
  | .lit s => if goType (.lit s) = goType b then .lit s else .mixed [.lit s, b]
  | .prim p => if goType (.prim p) = goType b then .prim p else .mixed [.prim p, b]
  | .mixed ts =>
      if ts.any (fun e => goType e = goType b) then .mixed ts else .mixed (ts ++ [b])
  | .slice st =>
      if goType (.slice st) = goType b then .slice st
      else
        match b with
        | .slice (.strct ofs) =>
            match st with
            | .strct sfs => .slice (.strct (structMergeFields sfs ofs))
            | .mixed ms =>
                match splitAtFirstStruct ms with
                | some pfs => .slice (.mixed (pfs.1 ++ [.strct (structMergeFields pfs.2.1 ofs)] ++ pfs.2.2))
                | none => .slice (.mixed (ms ++ [.strct ofs]))
            | _ => .mixed [.slice st, b]
        | _ => .mixed [.slice st, b]
  | .strct fs =>
      match b with
      | .strct os => .strct (structMergeFields fs os)
      | _ => .mixed [.strct fs, b]

/-- The loop of `StructType.Merge` (mongoschema.go lines 218-224): for each field
of the argument, merge into the receiver's field of the same name, or add it. -/
def structMergeFields (fs : List (String × Ty)) : List (String × Ty) → List (String × Ty)
  | [] => fs
  | (k, v) :: rest =>
      structMergeFields
        (match lookupField fs k with
          | some e => setField fs k (merge e v)
          | none => fs ++ [(k, v)])
        rest

end

/-- The net effect, on the accumulator `s` of `NewArrayType`, of the statement
`s.Merge(SliceType{Type: vt}, gen)` at mongoschema.go line 329.  The returned
value of that call is discarded, so only updates that reach the caller through
shared mutable state survive:

* equal `GoType` strings (line 163): `Merge` returns `s` unchanged;
* both element types are `StructType` (lines 172-175): `StructType.Merge`
  fills the receiver's map in place, so the caller's element type becomes the
  field-wise merge;
* the element type is a `MixedType` holding a `StructType` member (lines
  178-184): the member is overwritten in the shared backing array, which the
  caller's slice header still views;
* every other branch (the `append` at line 185 and the `MixedType` returns at
  lines 189, 60, 79, 151, 228) only builds a new value that line 329 throws
  away, leaving the accumulator unchanged. -/
def netSliceElemMerge (inner vt : Ty) : Ty :=
  if goType (.slice inner) = goType (.slice vt) then inner
  else
    match vt with
    | .strct ofs =>
        match inner with
        | .strct sfs => .strct (structMergeFields sfs ofs)
        | .mixed ms =>
            match splitAtFirstStruct ms with
            | some pfs => .mixed (pfs.1 ++ [.strct (structMergeFields pfs.2.1 ofs)] ++ pfs.2.2)
            | none => .mixed ms
        | _ => inner
    | _ => inner

/-- A value decoded from a MongoDB document, i.e. the dynamic Go types that
`Generator.TypeOf` (mongoschema.go lines 234-287) dispatches on.  Payloads that
the analyzed code never inspects (the float of a `float64`, the scope of a
`CodeWithScope`, ...) are either omitted or kept abstract.  `mOther` stands for
a Go value of any dynamic type outside the enumerated dispatch (it carries the
Go type's name); such values hit the `default` arm, which panics. -/
inductive MongoValue where
  | mInt32 (n : Int)
  | mInt64 (n : Int)
  | mDouble
  | mString (s : String)
  | mBool (b : Bool)
  | mDoc (fields : List (String × MongoValue))
  | mDocOrdered (fields : List (String × MongoValue))
  | mArray (elems : List MongoValue)
  | mObjectID (bytes : List Nat)
  | mDateTime (millis : Int)
  | mBinary (subtype : Nat) (data : List Nat)
  | mRegex (pattern : String) (options : String)
  | mJS (code : String)
  | mCodeWithScope (code : String)
  | mTimestamp (t : Nat) (i : Nat)
  | mDecimal (repr : String)
  | mMinKey
  | mMaxKey
  | mUndefined
  | mNull
  | mDBPointer (db : String) (ptr : List Nat)
  | mSymbol (s : String)
  | mOther (goTypeName : String)

/-- Go's `t == NilType` on a `Type` interface value: true exactly when the
dynamic type is `LiteralType` with literal `"nil"`. -/
def isNilType : Ty → Bool
  | .lit s => s = "nil"
  | _ => false

/-- `strings.Join(parts, ".")`. -/
def joinDotted : List String → String
  | [] => ""
  | [s] => s
  | s :: rest => s ++ "." ++ joinDotted rest

/-- `strings.Join(append(stack, k), ".")` (mongoschema.go line 292). -/
def joinPath (stack : List String) (k : String) : String :=
  joinDotted (stack ++ [k])

mutual

/-- `Generator.TypeOf` (mongoschema.go lines 234-287), with `panic` modelled as
`none`.  `stops` is `Generator.StopOnFields`. -/
def TypeOf (stops : List String) : MongoValue → List String → Option Ty
  | .mInt32 _, _ => some (.prim .pInt32)
  | .mInt64 _, _ => some (.prim .pInt64)
  | .mDouble, _ => some (.prim .pDouble)
  | .mString _, _ => some (.prim .pString)
  | .mBool _, _ => some (.prim .pBool)
  | .mDoc fields, stack => (NewStructFields stops fields stack).map .strct
  | .mDocOrdered fields, stack => (NewOrderedStructFields stops fields stack).map .strct
  | .mArray elems, stack => NewArrayType stops elems stack
  | .mObjectID _, _ => some (.prim .pObjectId)
  | .mDateTime _, _ => some (.prim .pDateTime)
  | .mBinary _ _, _ => some (.prim .pBinary)
  | .mRegex _ _, _ => some (.prim .pRegex)
  | .mJS _, _ => some (.prim .pJS)
  | .mCodeWithScope _, _ => some (.prim .pScopedCode)
  | .mTimestamp _ _, _ => some (.prim .pTimestamp)
  | .mDecimal _, _ => some (.prim .pDecimal)
  | .mMinKey, _ => some (.prim .pMinKey)
  | .mMaxKey, _ => some (.prim .pMaxKey)
  | .mUndefined, _ => some (.prim .pUndefined)
  | .mNull, _ => some nilType
  | .mDBPointer _ _, _ => some (.prim .pDBPointer)
  | .mSymbol _, _ => some (.prim .pSymbol)
  | .mOther _, _ => none

/-- The loop of `NewStructType` (mongoschema.go lines 289-304): a field whose
dotted path is in `stops` is assigned the empty `StructType` without its value
being inspected; any other field is recursed into with the extended stack.  The
Go map is built in iteration order; the association list keeps input order. -/
def NewStructFields (stops : List String) : List (String × MongoValue) → List String → Option (List (String × Ty))
  | [], _ => some []
  | (k, v) :: rest, stack =>
      (if joinPath stack k ∈ stops then
        some (Ty.strct [])
      else TypeOf stops v (stack ++ [k])).bind (fun t =>
        (NewStructFields stops rest stack).map (fun r => (k, t) :: r))

/-- The loop of `NewOrderedStructType` (mongoschema.go lines 306-317): no
stop-path check is performed, and fields whose type is `NilType` are skipped. -/
def NewOrderedStructFields (stops : List String) : List (String × MongoValue) → List String → Option (List (String × Ty))
  | [], _ => some []
  | (k, v) :: rest, stack =>
      (TypeOf stops v (stack ++ [k])).bind (fun t =>
        (NewOrderedStructFields stops rest stack).map (fun r =>
          if isNilType t then r else (k, t) :: r))

/-- `NewArrayType` (mongoschema.go lines 319-336): an empty array yields
`SliceType{MixedType{}}`; otherwise the first element seeds the accumulator and
the remaining elements pass through the discarded merge of line 329 (see
`netSliceElemMerge`).  Arrays do not extend the stack. -/
def NewArrayType (stops : List String) : List MongoValue → List String → Option Ty
  | [], _ => some (.slice (.mixed []))
  | v :: vs, stack =>
      (TypeOf stops v stack).bind (fun vt => ArrayFold stops vt vs stack)

/-- The loop of `NewArrayType` after the first element: each further element's
type is merged into the accumulator with the net effect of the discarded
`s.Merge(SliceType{Type: vt}, gen)` call. -/
def ArrayFold (stops : List String) (acc : Ty) : List MongoValue → List String → Option Ty
  | [], _ => some (.slice acc)
  | v :: vs, stack =>
      (TypeOf stops v stack).bind (fun vt =>
        ArrayFold stops (netSliceElemMerge acc vt) vs stack)

end

/-! ## Column flattener (src/mongodb/utils.go) -/

/-- `proto.ColumnType` values used by the plugin. -/
inductive ColumnType where
  | UNKNOWN | BOOL | INT | DOUBLE | STRING | TIMESTAMP | JSON
  deriving DecidableEq

/-- `getSteampipeTypeForMongoType` (utils.go lines 100-163). -/
def getSteampipeTypeForMongoType : Ty → ColumnType
  | .lit s => if s = "nil" then .JSON else .UNKNOWN
  | .mixed _ => .JSON
  | .prim p =>
      match p with
      | .pBool => .BOOL
      | .pDouble => .DOUBLE
      | .pInt32 => .INT
      | .pInt64 => .INT
      | .pDecimal => .DOUBLE
      | .pString => .STRING
      | .pBinary => .STRING
      | .pObjectId => .STRING
      | .pRegex => .STRING
      | .pJS => .STRING
      | .pScopedCode => .STRING
      | .pSymbol => .STRING
      | .pDateTime => .TIMESTAMP
      | .pTimestamp => .TIMESTAMP
      | .pDBPointer => .JSON
      | .pMinKey => .UNKNOWN
      | .pMaxKey => .UNKNOWN
      | .pUndefined => .UNKNOWN
  | .slice _ => .JSON
  | .strct _ => .JSON

mutual

/-- `mongoFieldToSteampipeCol` (utils.go lines 165-185): recurse only when the
field is a `StructType` with at least one child; otherwise emit a single column
for the current dotted name.  The Go `map[string]proto.ColumnType` union is
modelled as list concatenation, which agrees with it whenever the produced
dotted names are distinct. -/
def mongoFieldToSteampipeCol (fieldName : String) (fieldType : Ty) : List (String × ColumnType) :=
  match fieldType with
  | .strct fs =>
      if fs.length > 0 then childColumns fieldName fs
      else [(fieldName, getSteampipeTypeForMongoType (.strct fs))]
  | t => [(fieldName, getSteampipeTypeForMongoType t)]

/-- The loop of `mongoFieldToSteampipeCol` over the children of a non-empty
`StructType` (utils.go lines 171-178): each child contributes the columns of
`mongoFieldToSteampipeCol` at dotted name `parent.child`. -/
def childColumns (fieldName : String) : List (String × Ty) → List (String × ColumnType)
  | [] => []
  | (k, v) :: rest => mongoFieldToSteampipeCol (fieldName ++ "." ++ k) v ++ childColumns fieldName rest

end

/-! ## Value coercer (`mongoTransformFunction`, src/mongodb/utils.go lines 204-254) -/

/-- A lowercase hexadecimal digit. -/
def hexDigit (n : Nat) : Char :=
  if n < 10 then Char.ofNat ('0'.toNat + n) else Char.ofNat ('a'.toNat + (n - 10))

/-- `hex.EncodeToString` / `primitive.ObjectID.Hex`: lowercase hex of a byte list. -/
def bytesToHex (bs : List Nat) : String :=
  String.mk (bs.foldr (fun b acc => hexDigit (b / 16 % 16) :: hexDigit (b % 16) :: acc) [])

/-- `uuid.UUID.String()`: canonical 8-4-4-4-12 form of 16 bytes. -/
def uuidString (bs : List Nat) : String :=
  bytesToHex (bs.take 4) ++ "-" ++ bytesToHex ((bs.drop 4).take 2) ++ "-" ++
    bytesToHex ((bs.drop 6).take 2) ++ "-" ++ bytesToHex ((bs.drop 8).take 2) ++ "-" ++
    bytesToHex (bs.drop 10)

/-- A value handed back to Steampipe by `mongoTransformFunction`.  `passthrough`
is a value returned unchanged; `timeMs` is a `time.Time` identified by its epoch
milliseconds; `floatOfDecimal` stands for `strconv.ParseFloat` of the decimal's
string form (the float itself is not modelled; no claim depends on it). -/
inductive SPValue where
  | passthrough (v : MongoValue)
  | str (s : String)
  | timeMs (ms : Int)
  | nullVal
  | dbRef (db : String) (ptrHex : String)
  | floatOfDecimal (repr : String)

/-- `mongoTransformFunction` (utils.go lines 204-254), with the returned
`(any, error)` pair modelled as `Except`.  Go's `string(bytes)` reinterpretation
is modelled by mapping each byte to the character of its code point. -/
def mongoTransformFunction : MongoValue → Except String SPValue
  | v@(.mInt32 _) => .ok (.passthrough v)
  | v@(.mInt64 _) => .ok (.passthrough v)
  | v@.mDouble => .ok (.passthrough v)
  | v@(.mString _) => .ok (.passthrough v)
  | v@(.mBool _) => .ok (.passthrough v)
  | v@.mNull => .ok (.passthrough v)
  | v@(.mDoc _) => .ok (.passthrough v)
  | v@(.mDocOrdered _) => .ok (.passthrough v)
  | v@(.mArray _) => .ok (.passthrough v)
  | .mObjectID bytes => .ok (.str (bytesToHex bytes))
  | .mDateTime millis => .ok (.timeMs millis)
  | .mBinary subtype data =>
      -- bson.TypeBinaryUUID = 0x04, bson.TypeBinaryUUIDOld = 0x03, bson.TypeBinaryMD5 = 0x05
      if subtype = 0x04 ∨ subtype = 0x03 then
        if data.length = 16 then .ok (.str (uuidString data))
        else .error "uuid: UUID must be exactly 16 bytes long"
      else if subtype = 0x05 then .ok (.str (bytesToHex data))
      else .ok (.str (String.mk (data.map Char.ofNat)))
  | .mRegex pattern _ => .ok (.str pattern) -- the regex flags are lost here (source comment, line 234)
  | .mJS code => .ok (.str code)
  | .mCodeWithScope code => .ok (.str code) -- the code scope is lost here (source comment, line 238)
  | .mTimestamp t _ => .ok (.timeMs (Int.ofNat t * 1000)) -- time.Unix(int64(T), 0)
  | .mDecimal r => .ok (.floatOfDecimal r)
  | .mUndefined => .ok .nullVal
  | .mDBPointer db ptr => .ok (.dbRef db (bytesToHex ptr))
  | .mSymbol s => .ok (.str s)
  | .mMinKey => .error "received unknown value of type primitive.MinKey"
  | .mMaxKey => .error "received unknown value of type primitive.MaxKey"
  | .mOther goTypeName => .error ("received unknown value of type " ++ goTypeName)

/-! ## Predicate compiler (`qualsToMongoFilter`, src/mongodb/utils.go lines 264-332) -/

/-- The operator strings of the `quals` package of the Steampipe plugin SDK
(`quals.QualOperatorEqual` is `=`, and so on). -/
def qualOperatorEqual : String := "="

def qualOperatorNotEqual : String := "<>"

def qualOperatorGreater : String := ">"

def qualOperatorLess : String := "<"

def qualOperatorGreaterOrEqual : String := ">="

def qualOperatorLessOrEqual : String := "<="

def qualOperatorIsNull : String := "is null"

def qualOperatorIsNotNull : String := "is not null"

def qualOperatorRegex : String := "~"

def qualOperatorNotRegex : String := "!~"

def qualOperatorIRegex : String := "~*"

def qualOperatorNotIRegex : String := "!~*"

def qualOperatorLike : String := "~~"

def qualOperatorJsonbExistsOne : String := "?"

def qualOperatorJsonbExistsAny : String := "?|"

def qualOperatorJsonbExistsAll : String := "?&"

/-- A `proto.QualValue`: the typed container holding a predicate's literal. -/
inductive QualValue where
  | qvString (s : String)
  | qvInt (n : Int)
  | qvDouble
  | qvBool (b : Bool)
  | qvTime (ms : Int)

/-- `GetStringValue`: the string member, or the zero value for other variants. -/
def getStringValue : QualValue → String
  | .qvString s => s
  | _ => ""

/-- `GetInt64Value`: the int64 member, or the zero value for other variants. -/
def getInt64Value : QualValue → Int
  | .qvInt n => n
  | _ => 0

/-- `GetBoolValue`: the bool member, or the zero value for other variants. -/
def getBoolValue : QualValue → Bool
  | .qvBool b => b
  | _ => false

/-- A `quals.Qual`: column name, operator string, literal value. -/
structure Qual where
  column : String
  operator : String
  value : QualValue

/-- The `Name` and `Type` of a `plugin.Column`. -/
structure SPColumn where
  name : String
  type : ColumnType

/-- The right-hand side placed into a Mongo filter clause. -/
inductive FilterValue where
  | fvStr (s : String)
  | fvInt (n : Int)
  | fvDouble
  | fvBool (b : Bool)
  | fvNull
  | fvOid (bytes : List Nat)

/-- One `bson.M` operator document of the compiled filter:
`regexOp v ci` is `{$regex: v}` resp. `{$regex: v, $options: "i"}`, and
`notRegexOp` wraps it in `{$not: ...}`. -/
inductive FilterOp where
  | eqOp (v : FilterValue)
  | neOp (v : FilterValue)
  | gtOp (v : FilterValue)
  | ltOp (v : FilterValue)
  | gteOp (v : FilterValue)
  | lteOp (v : FilterValue)
  | regexOp (v : FilterValue) (caseInsensitive : Bool)
  | notRegexOp (v : FilterValue) (caseInsensitive : Bool)
  | inOp (v : FilterValue)
  | allOp (v : FilterValue)

/-- The `switch col.Type` of `qualsToMongoFilter` (utils.go lines 273-285):
read the literal out of its typed container according to the column's type;
column types without a case leave the Go `filterValue` variable `nil`. -/
def filterValueFor (colType : ColumnType) (qv : QualValue) : FilterValue :=
  match colType with
  | .STRING => .fvStr (getStringValue qv)
  | .JSON => .fvStr (getStringValue qv) -- JSONB operators still receive strings on the RHS
  | .INT => .fvInt (getInt64Value qv)
  | .DOUBLE => .fvDouble
  | .BOOL => .fvBool (getBoolValue qv)
  | _ => .fvNull

/-- The `switch qual.Operator` of `qualsToMongoFilter` (utils.go lines 293-325).
The four LIKE variants and `@>`, `<@`, `@?`, `@@` have no case, so for them the
Go `filterOp` variable keeps its zero value `nil`: that is the `none` result. -/
def filterOpFor (op : String) (v : FilterValue) : Option FilterOp :=
  if op = qualOperatorEqual then some (.eqOp v)
  else if op = qualOperatorNotEqual then some (.neOp v)
  else if op = qualOperatorGreater then some (.gtOp v)
  else if op = qualOperatorLess then some (.ltOp v)
  else if op = qualOperatorGreaterOrEqual then some (.gteOp v)
  else if op = qualOperatorLessOrEqual then some (.lteOp v)
  else if op = qualOperatorIsNull then some (.eqOp .fvNull)
  else if op = qualOperatorIsNotNull then some (.neOp .fvNull)
  else if op = qualOperatorRegex then some (.regexOp v false)
  else if op = qualOperatorNotRegex then some (.notRegexOp v false)
  else if op = qualOperatorIRegex then some (.regexOp v true)
  else if op = qualOperatorNotIRegex then some (.notRegexOp v true)
  else if op = qualOperatorJsonbExistsOne then some (.eqOp v)
  else if op = qualOperatorJsonbExistsAny then some (.inOp v)
  else if op = qualOperatorJsonbExistsAll then some (.allOp v)
  else none

/-- `slices.IndexFunc(columns, ...)` followed by `columns[colIndex]` (utils.go
lines 270-271); an absent column makes the Go code panic with index -1, which is
modelled as `none`. -/
def findColumn (columns : List SPColumn) (name : String) : Option SPColumn :=
  columns.find? (fun c => c.name == name)

/-- `qualsToMongoFilter` (utils.go lines 264-332).  The input
`plugin.KeyColumnQualMap` is flattened to the list of its quals (the two nested
`for` loops iterate exactly those; Go's map order is unspecified and is
canonicalized to list order).  Each qual unconditionally appends one
`bson.E{Key: qual.Column, Value: filterOp}` entry (line 328), including when the
operator switch left `filterOp` nil: the entry's value is `none` then. -/
def qualsToMongoFilter (columns : List SPColumn) : List Qual → Option (List (String × Option FilterOp))
  | [] => some []
  | q :: rest =>
      (findColumn columns q.column).bind (fun col =>
        (qualsToMongoFilter columns rest).map (fun f =>
          (q.column, filterOpFor q.operator (filterValueFor col.type q.value)) :: f))

/-! ## The four-argument predicate compiler called by the tests

`src/main.go` (`TestStringQual`, `TestTimestampQual`, `TestRegexQual`,
`TestObjectIDQual`) calls `qualsToMongoFilter(ctx, quals, columns, typeMap)`
with the collection's original inferred `StructType` as a fourth argument, and
`TestObjectIDQual` expects the text literal of an object-id column to be
compiled to the parsed `primitive.ObjectID`.  No four-argument
`qualsToMongoFilter` exists under src/; it is modelled below from the spec. -/

/-- Walk a `Ty` down a list of path segments through `StructType` fields. -/
def pathTypeSegs : Ty → List String → Option Ty
  | t, [] => some t
  | .strct fs, seg :: rest => (lookupField fs seg).bind (fun t => pathTypeSegs t rest)
  | _, _ :: _ => none

/-- Splitting a dotted name into its segments (`strings.Split(col, ".")`). -/
def dotSplitAux : List Char → List Char → List String
  | [], cur => [String.mk cur.reverse]
  | c :: rest, cur =>
      if c = '.' then String.mk cur.reverse :: dotSplitAux rest []
      else dotSplitAux rest (c :: cur)

/-- The segments of a dotted column name. -/
def splitDots (s : String) : List String := dotSplitAux s.data []

/-- The type at a dotted column path of the original inferred type tree. -/
def pathType (tm : Ty) (col : String) : Option Ty :=
  pathTypeSegs tm (splitDots col)

/-- The value of one hex digit character. -/
def hexVal (c : Char) : Option Nat :=
  if '0' ≤ c ∧ c ≤ '9' then some (c.toNat - '0'.toNat)
  else if 'a' ≤ c ∧ c ≤ 'f' then some (c.toNat - 'a'.toNat + 10)
  else if 'A' ≤ c ∧ c ≤ 'F' then some (c.toNat - 'A'.toNat + 10)
  else none

/-- `hex.DecodeString`: pairs of hex digits to bytes. -/
def hexBytes : List Char → Option (List Nat)
  | [] => some []
  | c1 :: c2 :: rest =>
      (hexVal c1).bind (fun h => (hexVal c2).bind (fun l =>
        (hexBytes rest).map (fun bs => (16 * h + l) :: bs)))
  | _ => none

/-- `primitive.ObjectIDFromHex`: exactly 24 characters, hex-decoded to 12 bytes. -/
def parseObjectIDHex (s : String) : Option (List Nat) :=
  if s.length = 24 then hexBytes s.data else none

/-- Outcome of compiling one predicate in the modelled compiler: a filter clause,
or the predicate dropped from the filter. -/
inductive QualOutcome where
  | clause (key : String) (op : FilterOp)
  | dropped

/-- Modelled from the spec: the per-predicate body of the four-argument
`qualsToMongoFilter` that the tests in src/main.go call but that is missing from
src/.  Per spec section 4.5: the literal is read out of its typed container by
the column's category; if the column's path in the original Type tree has
exactly the object-identifier primitive type, the text literal is parsed into
the binary object-identifier form and that parsed value is placed into the
filter, a parse failure dropping only this predicate; operators with no native
equivalent are omitted from the compiled filter. -/
def compileQualWithTypeMap (columns : List SPColumn) (tm : Ty) (q : Qual) : Option QualOutcome :=
  (findColumn columns q.column).map (fun col =>
    let fv := filterValueFor col.type q.value
    let coerced : Option FilterValue :=
      match pathType tm q.column with
      | some (.prim .pObjectId) =>
          (parseObjectIDHex (getStringValue q.value)).map .fvOid
      | _ => some fv
    match coerced with
    | none => .dropped
    | some fv2 =>
        match filterOpFor q.operator fv2 with
        | some op => .clause q.column op
        | none => .dropped)

/-- Modelled from the spec: the four-argument `qualsToMongoFilter` over a list
of predicates (see `compileQualWithTypeMap`). -/
def qualsToMongoFilterWithTypeMap (columns : List SPColumn) (tm : Ty) : List Qual → Option (List (String × FilterOp))
  | [] => some []
  | q :: rest =>
      (compileQualWithTypeMap columns tm q).bind (fun oc =>
        (qualsToMongoFilterWithTypeMap columns tm rest).map (fun f =>
          match oc with
          | .clause c op => (c, op) :: f
          | .dropped => f))

/-! ## Predicates used to state the claims -/

/-- Whether a `Ty` is a `StructType`. -/
def isStructTy : Ty → Bool
  | .strct _ => true
  | _ => false

/-- Whether a `Ty` is a `MixedType`. -/
def isMixedTy : Ty → Bool
  | .mixed _ => true
  | _ => false

/-- Whether a `Ty` is a `StructType` with at least one field (the condition under
which `mongoFieldToSteampipeCol` recurses). -/
def isNonemptyStruct : Ty → Bool
  | .strct fs => fs.length > 0
  | _ => false

/-- No direct member of a `MixedType` is itself a `MixedType` (trivially true for
the other variants): the flattening invariant claimed by the spec. -/
def mixedFlat : Ty → Bool
  | .mixed ts => ts.all (fun t => !isMixedTy t)
  | _ => true

mutual

/-- The type contains no `MixedType` anywhere. -/
def mixedFree : Ty → Bool
  | .lit _ => true
  | .prim _ => true
  | .mixed _ => false
  | .slice t => mixedFree t
  | .strct fs => mixedFreeFields fs

/-- `mixedFree` over the fields of a `StructType`. -/
def mixedFreeFields : List (String × Ty) → Bool
  | [] => true
  | (_, t) :: rest => mixedFree t && mixedFreeFields rest

end

/-- All keys of the list are pairwise distinct. -/
def distinctKeys : List String → Bool
  | [] => true
  | k :: rest => decide (k ∉ rest) && distinctKeys rest

mutual

/-- Every `StructType` occurring in the type has pairwise-distinct field names
(always true of a type decoded from Go maps, which cannot repeat keys). -/
def nodupKeys : Ty → Bool
  | .lit _ => true
  | .prim _ => true
  | .mixed ts => nodupKeysList ts
  | .slice t => nodupKeys t
  | .strct fs => distinctKeys (fs.map Prod.fst) && nodupKeysFields fs

/-- `nodupKeys` over the members of a `MixedType`. -/
def nodupKeysList : List Ty → Bool
  | [] => true
  | t :: rest => nodupKeys t && nodupKeysList rest

/-- `nodupKeys` over the fields of a `StructType`. -/
def nodupKeysFields : List (String × Ty) → Bool
  | [] => true
  | (_, t) :: rest => nodupKeys t && nodupKeysFields rest

end

/-- The value's dynamic kind is one of the kinds enumerated in the dispatch of
`Generator.TypeOf` (everything except `mOther`). -/
def enumeratedKind : MongoValue → Bool
  | .mOther _ => false
  | _ => true

mutual

/-- The value and, recursively, all values nested in its documents and arrays
have enumerated kinds. -/
def supported : MongoValue → Bool
  | .mDoc fields => supportedFields fields
  | .mDocOrdered fields => supportedFields fields
  | .mArray elems => supportedList elems
  | .mOther _ => false
  | _ => true

/-- `supported` over document fields. -/
def supportedFields : List (String × MongoValue) → Bool
  | [] => true
  | (_, v) :: rest => supported v && supportedFields rest

/-- `supported` over array elements. -/
def supportedList : List MongoValue → Bool
  | [] => true
  | v :: rest => supported v && supportedList rest

end

/-! ## Claim theorems -/

/-- Claim C1 (confirmed, against the spec-modelled four-argument compiler): for a
predicate (column, equals, literal text) whose column has, in the original
inferred type tree, exactly the object-identifier primitive type, the compiled
filter carries the parsed binary object identifier, not the literal text. -/
theorem c1_objectid_literal_parsed (columns : List SPColumn) (tm : Ty)
    (colName text : String) (oid : List Nat) (colTy : ColumnType)
    (hcol : findColumn columns colName = some ⟨colName, colTy⟩)
    (hpath : pathType tm colName = some (.prim .pObjectId))
    (hparse : parseObjectIDHex text = some oid) :
    qualsToMongoFilterWithTypeMap columns tm [⟨colName, qualOperatorEqual, .qvString text⟩] =
      some [(colName, .eqOp (.fvOid oid))] := by
  simp [qualsToMongoFilterWithTypeMap, compileQualWithTypeMap, hcol, hpath, hparse,
    filterOpFor, qualOperatorEqual, getStringValue]

/-- Witness for C1: the spec's own example literal `5ca4bbc7a2dd94ee5816238d` on
an `_id` column of object-identifier type compiles to the 12 parsed bytes. -/
theorem c1_objectid_literal_parsed_witness :
    qualsToMongoFilterWithTypeMap [⟨"_id", .STRING⟩] (.strct [("_id", .prim .pObjectId)])
      [⟨"_id", qualOperatorEqual, .qvString "5ca4bbc7a2dd94ee5816238d"⟩] =
      some [("_id", .eqOp (.fvOid [0x5c, 0xa4, 0xbb, 0xc7, 0xa2, 0xdd, 0x94, 0xee, 0x58, 0x16, 0x23, 0x8d]))] :=
  c1_objectid_literal_parsed _ _ _ _ _ ColumnType.STRING rfl rfl rfl

/-- Claim C2 (code bug): a predicate whose operator has no native translation
(here SQL LIKE, `~~`) does not vanish from the compiled filter: line 328 of
utils.go appends its `bson.E` entry anyway, with the `filterOp` variable still
nil, so the filter gains a clause pairing the column with a nil operator
document instead of contributing no clause at all. -/
theorem c2_like_predicate_appends_nil_clause :
    qualsToMongoFilter [⟨"field.string", .STRING⟩]
      [⟨"field.string", qualOperatorLike, .qvString "x"⟩] =
      some [("field.string", none)] ∧
    (some [("field.string", none)] : Option (List (String × Option FilterOp))) ≠ some [] :=
  ⟨rfl, by simp⟩

/-- Counterexample to claim C3: the flattener sends the two-member
`Mixed(Null, String)` to the opaque JSON category, not to the Text category that
`String` alone receives (utils.go line 113-114 maps every `MixedType` to JSON). -/
theorem c3_counterexample :
    mongoFieldToSteampipeCol "username" (.mixed [nilType, .prim .pString]) =
      [("username", .JSON)] ∧
    mongoFieldToSteampipeCol "username" (.prim .pString) = [("username", .STRING)] ∧
    ColumnType.JSON ≠ ColumnType.STRING :=
  ⟨rfl, rfl, by decide⟩

/-- Claim C3 as amended: every `Mixed` type, including the nullable two-member
form `Mixed(Null, T)`, is assigned the opaque JSON category by the flattener;
the claimed nullability collapse does not exist in the code. -/
theorem c3_mixed_always_opaque (name : String) (ts : List Ty) :
    mongoFieldToSteampipeCol name (.mixed ts) = [(name, .JSON)] := rfl

/-- Counterexample to claim C4: the array `[int64 1, "x"]` holds two structurally
distinct non-Struct element types, yet `TypeOf` yields a `Sequence` over the
first element's type `int64` — not over a `Mixed` containing both — because
`NewArrayType` discards the result of the merge at mongoschema.go line 329. -/
theorem c4_counterexample :
    TypeOf [] (.mArray [.mInt64 1, .mString "x"]) [] = some (.slice (.prim .pInt64)) ∧
    Ty.slice (.prim .pInt64) ≠ Ty.slice (.mixed [.prim .pInt64, .prim .pString]) :=
  ⟨rfl, by simp⟩

/-- Counterexample to claim C5: `merge` is not idempotent on a type that is a
`Mixed`: merging `Mixed(int64, string)` with itself appends the whole second
operand as a new member (its `GoType` string `interface` differs from every
member's), so the result strictly grows. -/
theorem c5_counterexample :
    merge (.mixed [.prim .pInt64, .prim .pString]) (.mixed [.prim .pInt64, .prim .pString]) =
      .mixed [.prim .pInt64, .prim .pString, .mixed [.prim .pInt64, .prim .pString]] ∧
    Ty.mixed [.prim .pInt64, .prim .pString, .mixed [.prim .pInt64, .prim .pString]] ≠
      .mixed [.prim .pInt64, .prim .pString] :=
  ⟨rfl, by simp⟩

/-- Counterexample to claim C6: merging a non-Mixed type with a `Mixed` operand
nests that operand whole as a direct member of the resulting `Mixed`
(`PrimitiveType.Merge`, mongoschema.go line 151, builds `MixedType{p, t}` with
`t` the untouched `Mixed`): the claimed flattening never happens. -/
theorem c6_counterexample :
    merge (.prim .pInt64) (.mixed [.prim .pString, .prim .pBool]) =
      .mixed [.prim .pInt64, .mixed [.prim .pString, .prim .pBool]] ∧
    mixedFlat (.mixed [.prim .pInt64, .mixed [.prim .pString, .prim .pBool]]) = false :=
  ⟨rfl, rfl⟩

/-- Counterexample to claim C7: for an ordered document (`primitive.D`) the
stop-path check is skipped (`NewOrderedStructType`, mongoschema.go lines
306-317): the stopped field `subscriptions` is still recursed into, so its type
is not the empty Struct. -/
theorem c7_counterexample :
    TypeOf ["subscriptions"] (.mDocOrdered [("subscriptions", .mDoc [("1", .mBool true)])]) [] =
      some (.strct [("subscriptions", .strct [("1", .prim .pBool)])]) ∧
    Ty.strct [("1", .prim .pBool)] ≠ Ty.strct [] :=
  ⟨rfl, by simp⟩

/-- Claim C9's counterexample: the value coercer maps a regular expression to
the bare pattern string, losing the flags entirely (utils.go line 234, whose
comment records the loss): the result is not a structured pattern-plus-flags
value, and the flags do not influence it. -/
theorem c9_counterexample :
    mongoTransformFunction (.mRegex "foo*" "ix") = .ok (.str "foo*") ∧
    mongoTransformFunction (.mRegex "foo*" "ix") = mongoTransformFunction (.mRegex "foo*" "") :=
  ⟨rfl, rfl⟩

/-- Claim C9 as amended: for every regular-expression value the coercer returns
exactly the pattern as a bare string; the flags are discarded. -/
theorem c9_regex_pattern_only (p o : String) :
    mongoTransformFunction (.mRegex p o) = .ok (.str p) := rfl

/-- Counterexample to claim C10: a value whose dynamic kind is enumerated (a
document) still makes `TypeOf` panic when a nested field value has a
non-enumerated kind, so the partiality is not confined to the top-level
dispatch. -/
theorem c10_counterexample :
    enumeratedKind (.mDoc [("a", .mOther "int")]) = true ∧
    TypeOf [] (.mDoc [("a", .mOther "int")]) [] = none :=
  ⟨rfl, rfl⟩

/-- Claim C4 as amended: for a two-element array whose second element's type is
not a Struct and differs (as a rendered `GoType` slice string) from the first
element's type, `TypeOf` yields a `Sequence` over the first element's type: the
pairwise merge of mongoschema.go line 329 is computed but its result discarded,
so nothing of the second element's type survives. -/
theorem c4_array_keeps_first_element_type (stops stack : List String)
    (v1 v2 : MongoValue) (t1 t2 : Ty)
    (h1 : TypeOf stops v1 stack = some t1)
    (h2 : TypeOf stops v2 stack = some t2)
    (hns : isStructTy t2 = false)
    (hne : goType (.slice t1) ≠ goType (.slice t2)) :
    TypeOf stops (.mArray [v1, v2]) stack = some (.slice t1) := by
  have hnet : netSliceElemMerge t1 t2 = t1 := by
    cases t2 <;> simp_all [netSliceElemMerge, isStructTy]
  simp [TypeOf, NewArrayType, h1, h2, ArrayFold, hnet]

/-- Witness for the amended C4: the array `[true, "s"]` is inferred as a
sequence of booleans. -/
theorem c4_array_keeps_first_element_type_witness :
    TypeOf [] (.mArray [.mBool true, .mString "s"]) [] = some (.slice (.prim .pBool)) :=
  c4_array_keeps_first_element_type [] [] _ _ _ (.prim .pString) rfl rfl rfl (by decide)

/-- Claim C6 as amended: the result of `merge(a, b)` has no `Mixed` as a direct
member of a `Mixed` result provided the right operand `b` is not itself a
`Mixed` and `a` (if a `Mixed`) is flat; when `b` is a `Mixed`, it is appended
whole as a nested member (see the counterexample): the operand folding claimed
by the spec does not happen. -/
theorem c6_merge_flat_unless_mixed_operand (a b : Ty)
    (ha : mixedFlat a = true) (hb : isMixedTy b = false) :
    mixedFlat (merge a b) = true := by
  cases a with
  | lit s =>
      by_cases h : goType (.lit s) = goType b
      · simp [merge, h, mixedFlat]
      · simp only [isMixedTy] at hb
        simp [merge, h, mixedFlat, isMixedTy, hb]
  | prim p =>
      by_cases h : goType (.prim p) = goType b
      · simp [merge, h, mixedFlat]
      · simp only [isMixedTy] at hb
        simp [merge, h, mixedFlat, isMixedTy, hb]
  | mixed ts =>
      by_cases h : ts.any (fun e => goType e = goType b)
      · simp only [merge, h, if_true]
        exact ha
      · simp only [merge, h, Bool.false_eq_true, if_false, mixedFlat, List.all_append] at ha ⊢
        simp_all [mixedFlat]
  | slice st =>
      by_cases h : goType (.slice st) = goType b
      · rw [merge.eq_def]
        simp [h, mixedFlat]
      · cases b with
        | slice bt =>
            cases bt with
            | strct ofs =>
                cases st with
                | lit s2 => simp [merge, h, mixedFlat, isMixedTy]
                | prim p2 => simp [merge, h, mixedFlat, isMixedTy]
                | mixed ms =>
                    cases hsp : splitAtFirstStruct ms <;>
                      simp [merge, h, hsp, mixedFlat]
                | slice st2 => simp [merge, h, mixedFlat, isMixedTy]
                | strct sfs => simp [merge, h, mixedFlat]
            | lit s2 => simp [merge, h, mixedFlat, isMixedTy]
            | prim p2 => simp [merge, h, mixedFlat, isMixedTy]
            | mixed ms2 => simp [merge, h, mixedFlat, isMixedTy]
            | slice st2 => simp [merge, h, mixedFlat, isMixedTy]
        | lit s2 => simp [merge, h, mixedFlat, isMixedTy]
        | prim p2 => simp [merge, h, mixedFlat, isMixedTy]
        | mixed ms2 => simp_all [isMixedTy]
        | strct ofs => simp [merge, h, mixedFlat, isMixedTy]
  | strct fs =>
      cases b with
      | strct os => simp [merge, mixedFlat]
      | lit s2 => simp [merge, mixedFlat, isMixedTy]
      | prim p2 => simp [merge, mixedFlat, isMixedTy]
      | mixed ms2 => simp_all [isMixedTy]
      | slice st2 => simp [merge, mixedFlat, isMixedTy]

/-- Witness for the amended C6: merging two distinct primitives yields a flat
two-member `Mixed`. -/
theorem c6_merge_flat_unless_mixed_operand_witness :
    mixedFlat (merge (.prim .pInt64) (.prim .pString)) = true :=
  c6_merge_flat_unless_mixed_operand (.prim .pInt64) (.prim .pString) rfl rfl

/-- Overwriting a key with the value it already holds leaves the field list
unchanged. -/
theorem setField_lookup_self : ∀ (fs : List (String × Ty)) (k : String) (v : Ty),
    lookupField fs k = some v → setField fs k v = fs := by
  intro fs
  induction fs with
  | nil => intro k v h; simp [lookupField] at h
  | cons kv rest ih =>
      intro k v h
      obtain ⟨k0, v0⟩ := kv
      by_cases hk : k0 = k
      · subst hk
        simp [lookupField] at h
        simp [setField, h]
      · simp only [lookupField, if_neg hk] at h
        simp [setField, hk, ih _ _ h]

/-- With pairwise-distinct keys, membership determines the lookup result. -/
theorem lookupField_of_distinct_mem : ∀ (fs : List (String × Ty)) (k : String) (v : Ty),
    distinctKeys (fs.map Prod.fst) = true → (k, v) ∈ fs → lookupField fs k = some v := by
  intro fs
  induction fs with
  | nil => intro k v _ h; simp at h
  | cons kv rest ih =>
      intro k v hnd hmem
      obtain ⟨k0, v0⟩ := kv
      simp only [List.map_cons, distinctKeys, Bool.and_eq_true, decide_eq_true_eq] at hnd
      rcases List.mem_cons.mp hmem with heq | htl
      · injection heq with hk hv
        subst hk; subst hv
        simp [lookupField]
      · have hk : k0 ≠ k := by
          intro hkk
          subst hkk
          exact hnd.1 (by simpa using List.mem_map_of_mem Prod.fst htl)
        simp [lookupField, hk, ih _ _ hnd.2 htl]

/-- A field of a struct whose fields are all `mixedFree` is `mixedFree`. -/
theorem mixedFreeFields_mem : ∀ (fs : List (String × Ty)) (kv : String × Ty),
    mixedFreeFields fs = true → kv ∈ fs → mixedFree kv.2 = true := by
  intro fs
  induction fs with
  | nil => intro kv _ h; simp at h
  | cons kv0 rest ih =>
      intro kv hf hmem
      obtain ⟨k0, v0⟩ := kv0
      simp only [mixedFreeFields, Bool.and_eq_true] at hf
      rcases List.mem_cons.mp hmem with heq | htl
      · subst heq; exact hf.1
      · exact ih _ hf.2 htl

/-- A field of a struct whose fields all satisfy `nodupKeys` satisfies it. -/
theorem nodupKeysFields_mem : ∀ (fs : List (String × Ty)) (kv : String × Ty),
    nodupKeysFields fs = true → kv ∈ fs → nodupKeys kv.2 = true := by
  intro fs
  induction fs with
  | nil => intro kv _ h; simp at h
  | cons kv0 rest ih =>
      intro kv hf hmem
      obtain ⟨k0, v0⟩ := kv0
      simp only [nodupKeysFields, Bool.and_eq_true] at hf
      rcases List.mem_cons.mp hmem with heq | htl
      · subst heq; exact hf.1
      · exact ih _ hf.2 htl

/-- Merging a field list into itself entry by entry is the identity when every
entry looks itself up and is merge-idempotent. -/
theorem structMergeFields_self_of : ∀ (os fs : List (String × Ty)),
    (∀ kv ∈ os, lookupField fs kv.1 = some kv.2 ∧ merge kv.2 kv.2 = kv.2) →
    structMergeFields fs os = fs := by
  intro os
  induction os with
  | nil => intro fs _; simp [structMergeFields]
  | cons kv rest ih =>
      intro fs h
      obtain ⟨k, v⟩ := kv
      have h1 := h (k, v) (List.mem_cons_self _ _)
      simp only [structMergeFields, h1.1, h1.2, setField_lookup_self fs k v h1.1]
      exact ih fs (fun kv2 hm => h kv2 (List.mem_cons_of_mem _ hm))

/-- `merge T T = T` for `Mixed`-free, duplicate-key-free types, by strong
induction on the size of `T`. -/
theorem merge_self_aux : ∀ (n : Nat) (T : Ty), sizeOf T ≤ n →
    mixedFree T = true → nodupKeys T = true → merge T T = T := by
  intro n
  induction n with
  | zero =>
      intro T hs _ _
      exfalso
      cases T <;> simp at hs
  | succ n ih =>
      intro T hs hm hk
      cases T with
      | lit s => simp [merge]
      | prim p => simp [merge]
      | mixed ts => simp [mixedFree] at hm
      | slice t =>
          rw [merge.eq_def]
          simp
      | strct fs =>
          simp only [mixedFree] at hm
          simp only [nodupKeys, Bool.and_eq_true] at hk
          have hreq : ∀ kv ∈ fs, lookupField fs kv.1 = some kv.2 ∧ merge kv.2 kv.2 = kv.2 := by
            intro kv hkv
            refine ⟨lookupField_of_distinct_mem fs kv.1 kv.2 hk.1 (by simpa using hkv), ?_⟩
            apply ih
            · have h1 : sizeOf kv < sizeOf fs := List.sizeOf_lt_of_mem hkv
              have h2 : sizeOf kv.2 < sizeOf kv := by
                obtain ⟨a, b2⟩ := kv
                simp
              have h3 : sizeOf (Ty.strct fs) = 1 + sizeOf fs := by simp
              omega
            · exact mixedFreeFields_mem fs kv hm hkv
            · exact nodupKeysFields_mem fs kv hk.2 hkv
          simp only [merge]
          rw [structMergeFields_self_of fs fs hreq]

/-- Claim C5 as amended: `merge(T, T) = T` holds for every structurally-equal
pair of types that contain no `Mixed` member (and, as for every type produced
from Go maps, no duplicated struct keys), including deeply nested
`Struct`/`Sequence` combinations; a `Mixed` anywhere in `T` breaks idempotence
(see the counterexample). -/
theorem c5_merge_idempotent_mixedfree (T : Ty)
    (hm : mixedFree T = true) (hk : nodupKeys T = true) : merge T T = T :=
  merge_self_aux (sizeOf T) T le_rfl hm hk

/-- Witness for the amended C5: a struct holding a sequence and a nested struct
merges with itself to itself. -/
theorem c5_merge_idempotent_mixedfree_witness :
    merge (.strct [("a", .slice (.prim .pString)), ("b", .strct [("c", .prim .pInt64)])])
      (.strct [("a", .slice (.prim .pString)), ("b", .strct [("c", .prim .pInt64)])]) =
      .strct [("a", .slice (.prim .pString)), ("b", .strct [("c", .prim .pInt64)])] :=
  c5_merge_idempotent_mixedfree _ rfl rfl

/-- Claim C7 as amended: for every map-form document value (`primitive.M`, the
form the sampler feeds to the inferrer), a field whose dotted path is in the
stop set is assigned the empty Struct without its value being inspected (the
theorem holds even for values whose inspection would panic), while any field
whose dotted path is not stopped — including one with the same name at a
different path — is recursed into normally; ordered documents (`primitive.D`)
skip the stop check (see the counterexample). -/
theorem c7_stop_path_forces_empty_struct (stops stack : List String)
    (fields : List (String × MongoValue)) (out : List (String × Ty))
    (k : String) (v : MongoValue)
    (hout : NewStructFields stops fields stack = some out)
    (hnd : distinctKeys (fields.map Prod.fst) = true)
    (hmem : (k, v) ∈ fields) :
    (joinPath stack k ∈ stops → lookupField out k = some (.strct [])) ∧
    (joinPath stack k ∉ stops → lookupField out k = TypeOf stops v (stack ++ [k])) := by
  induction fields generalizing out with
  | nil => simp at hmem
  | cons kv0 rest ih =>
      obtain ⟨k0, v0⟩ := kv0
      simp only [NewStructFields] at hout
      obtain ⟨t, hbind, hmap⟩ := Option.bind_eq_some.mp hout
      obtain ⟨r, hrec, hcons⟩ := Option.map_eq_some'.mp hmap
      subst hcons
      simp only [List.map_cons, distinctKeys, Bool.and_eq_true, decide_eq_true_eq] at hnd
      rcases List.mem_cons.mp hmem with heq | htl
      · injection heq with hk hv
        subst hk; subst hv
        constructor
        · intro hstop
          rw [if_pos hstop] at hbind
          injection hbind with ht
          subst ht
          simp [lookupField]
        · intro hnstop
          rw [if_neg hnstop] at hbind
          simp [lookupField, hbind]
      · have hk0 : k0 ≠ k := by
          intro he
          subst he
          exact hnd.1 (by simpa using List.mem_map_of_mem Prod.fst htl)
        have hrest := ih r hrec hnd.2 htl
        simpa [lookupField, hk0] using hrest

/-- Witness for the amended C7: with stop set `subscriptions`, the
`subscriptions` field of a map document is forced to the empty Struct. -/
theorem c7_stop_path_forces_empty_struct_witness :
    lookupField [("subscriptions", .strct []), ("active", .prim .pBool)] "subscriptions" =
      some (.strct []) :=
  (c7_stop_path_forces_empty_struct ["subscriptions"] []
      [("subscriptions", .mDoc [("1", .mBool true)]), ("active", .mBool true)]
      [("subscriptions", .strct []), ("active", .prim .pBool)]
      "subscriptions" (.mDoc [("1", .mBool true)])
      rfl (by decide) (List.mem_cons_self _ _)).1 (by decide)

/-- Every column name produced for the children of a struct comes from one of
its fields, flattened under the dotted child name. -/
theorem childColumns_mem : ∀ (fs : List (String × Ty)) (name c : String),
    c ∈ (childColumns name fs).map Prod.fst →
    ∃ k v, (k, v) ∈ fs ∧ c ∈ (mongoFieldToSteampipeCol (name ++ "." ++ k) v).map Prod.fst := by
  intro fs name c
  induction fs with
  | nil => intro h; simp [childColumns] at h
  | cons kv rest ih =>
      intro h
      obtain ⟨k, v⟩ := kv
      simp only [childColumns, List.map_append, List.mem_append] at h
      rcases h with h | h
      · exact ⟨k, v, List.mem_cons_self _ _, h⟩
      · obtain ⟨k2, v2, hm, hc⟩ := ih h
        exact ⟨k2, v2, List.mem_cons_of_mem _ hm, hc⟩

/-- Every column name produced by the flattener is the current dotted name or a
strict dotted extension of it. -/
theorem flatten_keys_aux : ∀ (n : Nat) (t : Ty) (name c : String), sizeOf t ≤ n →
    c ∈ (mongoFieldToSteampipeCol name t).map Prod.fst →
    c = name ∨ ∃ r, c = name ++ "." ++ r := by
  intro n
  induction n with
  | zero =>
      intro t name c hs _
      exfalso
      cases t <;> simp at hs
  | succ n ih =>
      intro t name c hs hmem
      cases t with
      | strct fs =>
          by_cases hlen : fs.length > 0
          · simp only [mongoFieldToSteampipeCol] at hmem
            rw [if_pos hlen] at hmem
            obtain ⟨k, v, hkv, hc⟩ := childColumns_mem fs name c hmem
            have hsz : sizeOf v ≤ n := by
              have h1 := List.sizeOf_lt_of_mem hkv
              have h2 : sizeOf ((k, v) : String × Ty) = 1 + sizeOf k + sizeOf v := by simp
              have h3 : sizeOf (Ty.strct fs) = 1 + sizeOf fs := by simp
              omega
            rcases ih v (name ++ "." ++ k) c hsz hc with he | ⟨r, hr⟩
            · exact Or.inr ⟨k, he⟩
            · exact Or.inr ⟨k ++ "." ++ r, by rw [hr]; simp [String.append_assoc]⟩
          · simp only [mongoFieldToSteampipeCol] at hmem
            rw [if_neg hlen] at hmem
            simp at hmem
            exact Or.inl hmem
      | lit s => simpa using Or.inl (by simpa [mongoFieldToSteampipeCol] using hmem)
      | prim p => simpa using Or.inl (by simpa [mongoFieldToSteampipeCol] using hmem)
      | mixed ts => simpa using Or.inl (by simpa [mongoFieldToSteampipeCol] using hmem)
      | slice t2 => simpa using Or.inl (by simpa [mongoFieldToSteampipeCol] using hmem)

/-- Claim C8 (confirmed): the flattener recurses only into a Struct with at
least one field, whose columns are all named `parent.child...` and never the
ancestor name alone; a Struct with zero fields and every non-Struct variant
yields exactly the one column for the current dotted name. -/
theorem c8_flattener_columns (name : String) (t : Ty) :
    (isNonemptyStruct t = false →
      mongoFieldToSteampipeCol name t = [(name, getSteampipeTypeForMongoType t)]) ∧
    (isNonemptyStruct t = true →
      (∀ c ∈ (mongoFieldToSteampipeCol name t).map Prod.fst, ∃ r, c = name ++ "." ++ r) ∧
      name ∉ (mongoFieldToSteampipeCol name t).map Prod.fst) := by
  constructor
  · intro h
    cases t with
    | strct fs =>
        simp only [isNonemptyStruct, decide_eq_false_iff_not] at h
        simp only [mongoFieldToSteampipeCol]
        rw [if_neg h]
    | lit s => rfl
    | prim p => rfl
    | mixed ts => rfl
    | slice t2 => rfl
  · intro h
    cases t with
    | strct fs =>
        simp only [isNonemptyStruct, decide_eq_true_eq] at h
        have hkeys : ∀ c ∈ (mongoFieldToSteampipeCol name (.strct fs)).map Prod.fst,
            ∃ r, c = name ++ "." ++ r := by
          intro c hc
          simp only [mongoFieldToSteampipeCol] at hc
          rw [if_pos h] at hc
          obtain ⟨k, v, hkv, hcc⟩ := childColumns_mem fs name c hc
          rcases flatten_keys_aux (sizeOf v) v (name ++ "." ++ k) c le_rfl hcc with he | ⟨r, hr⟩
          · exact ⟨k, he⟩
          · exact ⟨k ++ "." ++ r, by rw [hr]; simp [String.append_assoc]⟩
        refine ⟨hkeys, ?_⟩
        intro hin
        obtain ⟨r, hr⟩ := hkeys name hin
        have hl := congrArg String.length hr
        have hdot : (".").length = 1 := rfl
        simp [String.length_append, hdot] at hl
        omega
    | lit s => simp [isNonemptyStruct] at h
    | prim p => simp [isNonemptyStruct] at h
    | mixed ts => simp [isNonemptyStruct] at h
    | slice t2 => simp [isNonemptyStruct] at h

/-- Witness for C8: the spec's example `Struct(a: Struct(b: String, c: Int))`
flattens to exactly the columns `a.b` (Text) and `a.c` (Integer), and no column
named `a`. -/
theorem c8_flattener_columns_witness :
    mongoFieldToSteampipeCol "a" (.strct [("b", .prim .pString), ("c", .prim .pInt64)]) =
      [("a.b", .STRING), ("a.c", .INT)] ∧
    "a" ∉ (mongoFieldToSteampipeCol "a" (.strct [("b", .prim .pString), ("c", .prim .pInt64)])).map Prod.fst :=
  ⟨rfl, ((c8_flattener_columns "a" (.strct [("b", .prim .pString), ("c", .prim .pInt64)])).2 rfl).2⟩

/-- A field of a document whose fields are all `supported` is `supported`. -/
theorem supportedFields_mem : ∀ (fs : List (String × MongoValue)) (kv : String × MongoValue),
    supportedFields fs = true → kv ∈ fs → supported kv.2 = true := by
  intro fs
  induction fs with
  | nil => intro kv _ h; simp at h
  | cons kv0 rest ih =>
      intro kv hf hmem
      obtain ⟨k0, v0⟩ := kv0
      simp only [supportedFields, Bool.and_eq_true] at hf
      rcases List.mem_cons.mp hmem with heq | htl
      · subst heq; exact hf.1
      · exact ih _ hf.2 htl

/-- An element of an array whose elements are all `supported` is `supported`. -/
theorem supportedList_mem : ∀ (vs : List MongoValue) (v : MongoValue),
    supportedList vs = true → v ∈ vs → supported v = true := by
  intro vs
  induction vs with
  | nil => intro v _ h; simp at h
  | cons v0 rest ih =>
      intro v hf hmem
      simp only [supportedList, Bool.and_eq_true] at hf
      rcases List.mem_cons.mp hmem with heq | htl
      · subst heq; exact hf.1
      · exact ih _ hf.2 htl

/-- `NewStructFields` succeeds when every field is stopped or has a typeable
value. -/
theorem newStructFields_isSome : ∀ (fields : List (String × MongoValue)) (stops stack : List String),
    (∀ kv ∈ fields, joinPath stack kv.1 ∈ stops ∨ (TypeOf stops kv.2 (stack ++ [kv.1])).isSome = true) →
    (NewStructFields stops fields stack).isSome = true := by
  intro fields
  induction fields with
  | nil => intro stops stack _; simp [NewStructFields]
  | cons kv rest ih =>
      intro stops stack h
      obtain ⟨k, v⟩ := kv
      have hrest := ih stops stack (fun kv2 hm => h kv2 (List.mem_cons_of_mem _ hm))
      obtain ⟨r, hr⟩ := Option.isSome_iff_exists.mp hrest
      simp only [NewStructFields]
      by_cases hstop : joinPath stack k ∈ stops
      · rw [if_pos hstop]
        simp [hr]
      · rcases h (k, v) (List.mem_cons_self _ _) with h1 | h1
        · exact absurd h1 hstop
        · obtain ⟨t, ht⟩ := Option.isSome_iff_exists.mp h1
          rw [if_neg hstop]
          simp [ht, hr]

/-- `NewOrderedStructFields` succeeds when every field value is typeable. -/
theorem newOrderedStructFields_isSome : ∀ (fields : List (String × MongoValue)) (stops stack : List String),
    (∀ kv ∈ fields, (TypeOf stops kv.2 (stack ++ [kv.1])).isSome = true) →
    (NewOrderedStructFields stops fields stack).isSome = true := by
  intro fields
  induction fields with
  | nil => intro stops stack _; simp [NewOrderedStructFields]
  | cons kv rest ih =>
      intro stops stack h
      obtain ⟨k, v⟩ := kv
      have hrest := ih stops stack (fun kv2 hm => h kv2 (List.mem_cons_of_mem _ hm))
      obtain ⟨r, hr⟩ := Option.isSome_iff_exists.mp hrest
      obtain ⟨t, ht⟩ := Option.isSome_iff_exists.mp (h (k, v) (List.mem_cons_self _ _))
      simp [NewOrderedStructFields, ht, hr]

/-- `ArrayFold` succeeds when every remaining element is typeable. -/
theorem arrayFold_isSome : ∀ (elems : List MongoValue) (stops : List String) (acc : Ty) (stack : List String),
    (∀ v ∈ elems, (TypeOf stops v stack).isSome = true) →
    (ArrayFold stops acc elems stack).isSome = true := by
  intro elems
  induction elems with
  | nil => intro stops acc stack _; simp [ArrayFold]
  | cons v vs ih =>
      intro stops acc stack h
      obtain ⟨t, ht⟩ := Option.isSome_iff_exists.mp (h v (List.mem_cons_self _ _))
      simp only [ArrayFold, ht, Option.some_bind]
      exact ih stops (netSliceElemMerge acc t) stack (fun v2 hm => h v2 (List.mem_cons_of_mem _ hm))

/-- `TypeOf` returns a type for every recursively supported value, by strong
induction on the size of the value. -/
theorem typeOf_isSome_aux : ∀ (n : Nat) (v : MongoValue) (stops stack : List String),
    sizeOf v ≤ n → supported v = true → (TypeOf stops v stack).isSome = true := by
  intro n
  induction n with
  | zero =>
      intro v stops stack hs _
      exfalso
      cases v <;> simp at hs
  | succ n ih =>
      intro v stops stack hs hsup
      cases v
      case mDoc fields =>
          have hall : (NewStructFields stops fields stack).isSome = true := by
            apply newStructFields_isSome
            intro kv hm
            right
            apply ih
            · have h1 := List.sizeOf_lt_of_mem hm
              have h2 : sizeOf kv = 1 + sizeOf kv.1 + sizeOf kv.2 := by
                obtain ⟨a, b2⟩ := kv
                simp
              have h3 : sizeOf (MongoValue.mDoc fields) = 1 + sizeOf fields := by simp
              omega
            · exact supportedFields_mem fields kv (by simpa [supported] using hsup) hm
          obtain ⟨r, hr⟩ := Option.isSome_iff_exists.mp hall
          simp [TypeOf, hr]
      case mDocOrdered fields =>
          have hall : (NewOrderedStructFields stops fields stack).isSome = true := by
            apply newOrderedStructFields_isSome
            intro kv hm
            apply ih
            · have h1 := List.sizeOf_lt_of_mem hm
              have h2 : sizeOf kv = 1 + sizeOf kv.1 + sizeOf kv.2 := by
                obtain ⟨a, b2⟩ := kv
                simp
              have h3 : sizeOf (MongoValue.mDocOrdered fields) = 1 + sizeOf fields := by simp
              omega
            · exact supportedFields_mem fields kv (by simpa [supported] using hsup) hm
          obtain ⟨r, hr⟩ := Option.isSome_iff_exists.mp hall
          simp [TypeOf, hr]
      case mArray elems =>
          cases elems with
          | nil => simp [TypeOf, NewArrayType]
          | cons v1 vs =>
              simp only [supported, supportedList, Bool.and_eq_true] at hsup
              have hs1 : (TypeOf stops v1 stack).isSome = true := by
                apply ih v1 stops stack ?_ hsup.1
                have h3 : sizeOf (MongoValue.mArray (v1 :: vs)) = 1 + sizeOf (v1 :: vs) := by simp
                have h4 : sizeOf (v1 :: vs) = 1 + sizeOf v1 + sizeOf vs := by simp
                omega
              obtain ⟨t, ht⟩ := Option.isSome_iff_exists.mp hs1
              simp only [TypeOf, NewArrayType, ht, Option.some_bind]
              apply arrayFold_isSome
              intro v2 hm
              apply ih
              · have h1 := List.sizeOf_lt_of_mem hm
                have h3 : sizeOf (MongoValue.mArray (v1 :: vs)) = 1 + sizeOf (v1 :: vs) := by simp
                have h4 : sizeOf (v1 :: vs) = 1 + sizeOf v1 + sizeOf vs := by simp
                omega
              · exact supportedList_mem vs v2 hsup.2 hm
      case mOther d => simp [supported] at hsup
      all_goals simp [TypeOf]

/-- Claim C10 as amended: `TypeOf` returns a type for every value all of whose
recursively nested values have enumerated kinds (any stop set, any stack), and
panics (`none`) for a value of a kind outside the enumeration; as the
counterexample shows, a container of enumerated kind holding a non-enumerated
nested value also panics, so the partiality is not confined to the top-level
dispatch. -/
theorem c10_typeof_total_on_supported (stops stack : List String) :
    (∀ v : MongoValue, supported v = true → (TypeOf stops v stack).isSome = true) ∧
    (∀ d : String, TypeOf stops (.mOther d) stack = none) :=
  ⟨fun v hv => typeOf_isSome_aux (sizeOf v) v stops stack le_rfl hv, fun _ => rfl⟩

/-- Witness for the amended C10: a small supported document types successfully,
and a value of non-enumerated kind panics. -/
theorem c10_typeof_total_on_supported_witness :
    (TypeOf [] (.mDoc [("a", .mInt32 1)]) []).isSome = true ∧
    TypeOf [] (.mOther "chan int") [] = none :=
  ⟨(c10_typeof_total_on_supported [] []).1 (.mDoc [("a", .mInt32 1)]) rfl,
   (c10_typeof_total_on_supported [] []).2 "chan int"⟩

end MongoPlugin
